import Mathlib

/-!
Verification of the opencode-event-push plugin core, shallowly embedded from
the TypeScript source: environment-variable interpolation over JSON values,
configuration loading and merging, the retrying HTTP delivery engine, and the
per-event dispatcher.

Modelling conventions:
the file system (readFileSync) is a function from paths to read outcomes;
JSON.parse is an abstract parser returning either a parsed value or the
string rendering of the thrown SyntaxError; the process environment is a
partial map from names to values; fetch is a function from the attempt index
to that attempt's outcome; console.warn output is collected as a list of the
warning strings; the asynchronous log collaborator is summarised by whether
its promise resolves.  All definitions are computable and structurally
recursive so concrete runs evaluate inside the kernel.
-/

-- ── Variable substitution: the regex scanner ─────────────────────────────────

/-- The five characters opening an env token, the literal left brace then
the letters of the word env then a colon. -/
def tokHead : List Char := ['\x7b', 'e', 'n', 'v', ':']

/-- Whether the list begins with an env-token opener. -/
def startsTok (l : List Char) : Bool := decide (l.take 5 = tokHead)

/-- Scan for the first closing brace, returning the characters before it and
the remainder after it.  This realizes the greedy one-or-more-non-brace
capture group of the source regex: the captured name runs to the first
closing brace. -/
def findName : List Char → Option (List Char × List Char)
  | [] => none
  | c :: rest =>
    if c = '\x7d' then some ([], rest)
    else match findName rest with
      | some (name, after) => some (c :: name, after)
      | none => none

/-- Environment lookup with the source's fallback: an unset variable reads
as the empty string (process.env lookup with nullish coalescing). -/
def envLookup (env : String → Option String) (name : String) : String :=
  (env name).getD ""

/-- Fuelled left-to-right scan of String.prototype.replace with the global
regex over env tokens: at each position, a complete token (opener, non-empty
brace-free name, closing brace) is replaced by the environment value and the
scan resumes after the token without rescanning the replacement; an
incomplete token or any other character is emitted verbatim and the scan
advances one position.  The fuel argument only makes the recursion
structural; it never runs out when it starts at the list length. -/
def interpGo (env : String → Option String) : Nat → List Char → List Char
  | _, [] => []
  | 0, l => l
  | fuel + 1, c :: rest =>
    if startsTok (c :: rest) then
      match findName (rest.drop 4) with
      | some (name, after) =>
        if name = [] then c :: interpGo env fuel rest
        else (envLookup env (String.mk name)).data ++ interpGo env fuel after
      | none => c :: interpGo env fuel rest
    else c :: interpGo env fuel rest

/-- Token replacement over a character list. -/
def interpChars (env : String → Option String) (l : List Char) : List Char :=
  interpGo env l.length l

/-- Token replacement over a string: the string branch of interpolate in the
source, value.replace over the global env-token regex. -/
def interpolateStr (env : String → Option String) (s : String) : String :=
  String.mk (interpChars env s.data)

/-- Whether a complete env token occurs anywhere in the list. -/
def hasToken : List Char → Bool
  | [] => false
  | c :: rest =>
    (startsTok (c :: rest) &&
      (match findName (rest.drop 4) with
       | some (name, _) => !name.isEmpty
       | none => false)) || hasToken rest

/-- Whether an env-token opener occurs anywhere in the list (stronger than
hasToken: even an unclosed opener counts). -/
def hasTokStart : List Char → Bool
  | [] => false
  | c :: rest => startsTok (c :: rest) || hasTokStart rest

-- ── Scanner lemmas ───────────────────────────────────────────────────────────

theorem findName_length :
    ∀ (l name after : List Char), findName l = some (name, after) →
      after.length < l.length := by
  intro l
  induction l with
  | nil => intro name after h; simp [findName] at h
  | cons c rest ih =>
    intro name after h
    rw [findName] at h
    by_cases hc : c = '\x7d'
    · rw [if_pos hc] at h
      obtain ⟨rfl, rfl⟩ := Prod.mk.injEq _ _ _ _ ▸ Option.some.injEq _ _ ▸ h
      simp
    · rw [if_neg hc] at h
      cases hfn : findName rest with
      | none => rw [hfn] at h; simp at h
      | some p =>
        obtain ⟨name', after'⟩ := p
        rw [hfn] at h
        simp only [Option.some.injEq, Prod.mk.injEq] at h
        obtain ⟨_, rfl⟩ := h
        have h5 := ih name' after' hfn
        simp
        omega

theorem findName_split :
    ∀ (name after : List Char), '\x7d' ∉ name →
      findName (name ++ '\x7d' :: after) = some (name, after) := by
  intro name
  induction name with
  | nil => intro after _; simp [findName]
  | cons c cs ih =>
    intro after h
    have hc : c ≠ '\x7d' := fun hcc => h (hcc ▸ List.mem_cons_self c cs)
    have hcs : '\x7d' ∉ cs := fun hm => h (List.mem_cons_of_mem c hm)
    rw [List.cons_append, findName, if_neg hc, ih after hcs]

theorem interpGo_congr (env : String → Option String) :
    ∀ (f1 : Nat) (l : List Char) (f2 : Nat), l.length ≤ f1 → l.length ≤ f2 →
      interpGo env f1 l = interpGo env f2 l := by
  intro f1
  induction f1 with
  | zero =>
    intro l f2 h1 _
    have hl : l = [] := List.eq_nil_of_length_eq_zero (Nat.le_zero.mp h1)
    subst hl
    simp [interpGo]
  | succ f1 ih =>
    intro l f2 h1 h2
    cases l with
    | nil => simp [interpGo]
    | cons c rest =>
      cases f2 with
      | zero => simp at h2
      | succ f2 =>
        have hr1 : rest.length ≤ f1 := by simp at h1; omega
        have hr2 : rest.length ≤ f2 := by simp at h2; omega
        simp only [interpGo]
        cases hs : startsTok (c :: rest) with
        | false => simp only [Bool.false_eq_true, if_false, ih rest f2 hr1 hr2]
        | true =>
          simp only [if_true]
          cases hfn : findName (rest.drop 4) with
          | none => simp only [ih rest f2 hr1 hr2]
          | some p =>
            obtain ⟨name, after⟩ := p
            have ha : after.length ≤ rest.length := by
              have h3 := findName_length (rest.drop 4) name after hfn
              have h4 : (rest.drop 4).length ≤ rest.length := by simp
              omega
            by_cases hn : name = []
            · simp only [hn, if_pos, ih rest f2 hr1 hr2]
            · simp only [if_neg hn, ih after f2 (le_trans ha hr1) (le_trans ha hr2)]

theorem interpChars_cons_of_not_tok (env : String → Option String) (c : Char)
    (rest : List Char) (h : startsTok (c :: rest) = false) :
    interpChars env (c :: rest) = c :: interpChars env rest := by
  show interpGo env (c :: rest).length (c :: rest) = _
  simp only [List.length_cons, interpGo, h, Bool.false_eq_true, if_false]
  rfl

theorem interpChars_tok_none (env : String → Option String) (c : Char)
    (rest : List Char) (hs : startsTok (c :: rest) = true)
    (hf : findName (rest.drop 4) = none) :
    interpChars env (c :: rest) = c :: interpChars env rest := by
  show interpGo env (c :: rest).length (c :: rest) = _
  simp only [List.length_cons, interpGo, hs, if_true, hf]
  rfl

theorem interpChars_tok_empty (env : String → Option String) (c : Char)
    (rest after : List Char) (hs : startsTok (c :: rest) = true)
    (hf : findName (rest.drop 4) = some ([], after)) :
    interpChars env (c :: rest) = c :: interpChars env rest := by
  show interpGo env (c :: rest).length (c :: rest) = _
  simp only [List.length_cons, interpGo, hs, if_true, hf, if_pos]
  rfl

theorem interpChars_token (env : String → Option String) (c : Char)
    (rest name after : List Char) (hs : startsTok (c :: rest) = true)
    (hf : findName (rest.drop 4) = some (name, after)) (hn : name ≠ []) :
    interpChars env (c :: rest) =
      (envLookup env (String.mk name)).data ++ interpChars env after := by
  show interpGo env (c :: rest).length (c :: rest) = _
  simp only [List.length_cons, interpGo, hs, if_true, hf, if_neg hn]
  have ha : after.length ≤ rest.length := by
    have h3 := findName_length (rest.drop 4) name after hf
    have h4 : (rest.drop 4).length ≤ rest.length := by simp
    omega
  rw [interpGo_congr env rest.length after after.length ha (le_refl _)]
  rfl

theorem startsTok_append_false (c : Char) (l rest : List Char)
    (h : startsTok (c :: l) = false)
    (hr : rest = [] ∨ ∃ t, rest = '\x7b' :: t) :
    startsTok (c :: (l ++ rest)) = false := by
  rcases hr with rfl | ⟨t, rfl⟩
  · simpa using h
  · apply decide_eq_false
    intro habs
    have hfalse : ¬(c :: l).take 5 = tokHead := of_decide_eq_false h
    rw [List.take_succ_cons] at habs
    have hc : c = '\x7b' := (List.cons.injEq _ _ _ _ ▸ habs).1
    have htail : (l ++ '\x7b' :: t).take 4 = ['e', 'n', 'v', ':'] :=
      (List.cons.injEq _ _ _ _ ▸ habs).2
    by_cases hlen : 4 ≤ l.length
    · rw [List.take_append_of_le_length hlen] at htail
      exact hfalse (by rw [List.take_succ_cons, hc, htail]; rfl)
    · push_neg at hlen
      rw [List.take_append_eq_append_take, List.take_of_length_le (by omega)] at htail
      have hk : ∃ m, 4 - l.length = m + 1 := ⟨3 - l.length, by omega⟩
      obtain ⟨m, hm⟩ := hk
      rw [hm, List.take_succ_cons] at htail
      have hmem : '\x7b' ∈ l ++ '\x7b' :: t.take m :=
        List.mem_append_right _ (List.mem_cons_self _ _)
      rw [htail] at hmem
      simp at hmem

theorem interpChars_append_lit (env : String → Option String) :
    ∀ (l rest : List Char), hasTokStart l = false →
      (rest = [] ∨ ∃ t, rest = '\x7b' :: t) →
      interpChars env (l ++ rest) = l ++ interpChars env rest := by
  intro l
  induction l with
  | nil => intro rest _ _; simp
  | cons c l ih =>
    intro rest h hr
    have h1 : startsTok (c :: l) = false ∧ hasTokStart l = false := by
      rw [hasTokStart] at h
      exact Bool.or_eq_false_iff.mp h
    have hs := startsTok_append_false c l rest h1.1 hr
    rw [List.cons_append, interpChars_cons_of_not_tok env c (l ++ rest) hs,
      ih rest h1.2 hr]
    rfl

theorem interpChars_eq_self_of_no_tok_start (env : String → Option String)
    (l : List Char) (h : hasTokStart l = false) : interpChars env l = l := by
  have h2 := interpChars_append_lit env l [] h (Or.inl rfl)
  have h3 : interpChars env ([] : List Char) = [] := rfl
  rw [List.append_nil] at h2
  rw [h2, h3, List.append_nil]

theorem interpChars_eq_self_of_no_token (env : String → Option String) :
    ∀ (l : List Char), hasToken l = false → interpChars env l = l := by
  intro l
  induction l with
  | nil => intro _; rfl
  | cons c rest ih =>
    intro h
    rw [hasToken] at h
    obtain ⟨h1, h2⟩ := Bool.or_eq_false_iff.mp h
    cases hs : startsTok (c :: rest) with
    | false => rw [interpChars_cons_of_not_tok env c rest hs, ih h2]
    | true =>
      rw [hs, Bool.true_and] at h1
      cases hfn : findName (rest.drop 4) with
      | none => rw [interpChars_tok_none env c rest hs hfn, ih h2]
      | some p =>
        obtain ⟨name, after⟩ := p
        rw [hfn] at h1
        simp only [Bool.not_eq_false'] at h1
        have hname : name = [] := List.isEmpty_iff.mp h1
        subst hname
        rw [interpChars_tok_empty env c rest after hs hfn, ih h2]

-- ── JSON values ──────────────────────────────────────────────────────────────

mutual

inductive Json where
  | null : Json
  | bool : Bool → Json
  | num : Int → Json
  | str : String → Json
  | arr : JsonList → Json
  | obj : JsonObj → Json
deriving Repr

inductive JsonList where
  | nil : JsonList
  | cons : Json → JsonList → JsonList
deriving Repr

inductive JsonObj where
  | nil : JsonObj
  | cons : String → Json → JsonObj → JsonObj
deriving Repr

end

/-- Convert an embedded JSON array to a Lean list of its elements. -/
def JsonList.toList : JsonList → List Json
  | .nil => []
  | .cons x xs => x :: JsonList.toList xs

/-- Build an embedded JSON array from a Lean list. -/
def JsonList.ofList : List Json → JsonList
  | [] => .nil
  | x :: xs => .cons x (JsonList.ofList xs)

/-- JavaScript property read on an object: the value at the first matching
key, or undefined (none) when absent. -/
def JsonObj.lookup : JsonObj → String → Option Json
  | .nil, _ => none
  | .cons k v rest, key => if k = key then some v else JsonObj.lookup rest key

mutual

/-- interpolate from the source: recursively walk a JSON-parsed value and
replace env tokens in every string leaf; arrays map elementwise, objects map
over values keeping keys, every other value passes through unchanged. -/
def Json.interpolate (env : String → Option String) : Json → Json
  | .null => .null
  | .bool b => .bool b
  | .num n => .num n
  | .str s => .str (interpolateStr env s)
  | .arr xs => .arr (JsonList.interpolate env xs)
  | .obj kvs => .obj (JsonObj.interpolate env kvs)

def JsonList.interpolate (env : String → Option String) : JsonList → JsonList
  | .nil => .nil
  | .cons x xs => .cons (Json.interpolate env x) (JsonList.interpolate env xs)

def JsonObj.interpolate (env : String → Option String) : JsonObj → JsonObj
  | .nil => .nil
  | .cons k v kvs => .cons k (Json.interpolate env v) (JsonObj.interpolate env kvs)

end

mutual

/-- Whether no string leaf of the value contains a complete env token. -/
def Json.tokenFree : Json → Bool
  | .null => true
  | .bool _ => true
  | .num _ => true
  | .str s => !hasToken s.data
  | .arr xs => JsonList.tokenFree xs
  | .obj kvs => JsonObj.tokenFree kvs

def JsonList.tokenFree : JsonList → Bool
  | .nil => true
  | .cons x xs => Json.tokenFree x && JsonList.tokenFree xs

def JsonObj.tokenFree : JsonObj → Bool
  | .nil => true
  | .cons _ v kvs => Json.tokenFree v && JsonObj.tokenFree kvs

end

mutual

theorem json_interpolate_id_aux (env : String → Option String) :
    ∀ (v : Json), Json.tokenFree v = true → Json.interpolate env v = v
  | .null, _ => rfl
  | .bool _, _ => rfl
  | .num _, _ => rfl
  | .str s, h => by
      have h' : hasToken s.data = false := by
        rw [Json.tokenFree, Bool.not_eq_true'] at h
        exact h
      show Json.str (interpolateStr env s) = Json.str s
      rw [interpolateStr, interpChars_eq_self_of_no_token env s.data h']
  | .arr xs, h => by
      rw [Json.interpolate,
        jsonList_interpolate_id_aux env xs (by rw [Json.tokenFree] at h; exact h)]
  | .obj kvs, h => by
      rw [Json.interpolate,
        jsonObj_interpolate_id_aux env kvs (by rw [Json.tokenFree] at h; exact h)]

theorem jsonList_interpolate_id_aux (env : String → Option String) :
    ∀ (xs : JsonList), JsonList.tokenFree xs = true →
      JsonList.interpolate env xs = xs
  | .nil, _ => rfl
  | .cons x xs, h => by
      rw [JsonList.tokenFree, Bool.and_eq_true] at h
      rw [JsonList.interpolate, json_interpolate_id_aux env x h.1,
        jsonList_interpolate_id_aux env xs h.2]

theorem jsonObj_interpolate_id_aux (env : String → Option String) :
    ∀ (kvs : JsonObj), JsonObj.tokenFree kvs = true →
      JsonObj.interpolate env kvs = kvs
  | .nil, _ => rfl
  | .cons k v kvs, h => by
      rw [JsonObj.tokenFree, Bool.and_eq_true] at h
      rw [JsonObj.interpolate, json_interpolate_id_aux env v h.1,
        jsonObj_interpolate_id_aux env kvs h.2]

end

-- ── Rendering of strings with and without their env tokens ───────────────────

/-- Assemble a string as alternating literal segments and complete env
tokens: each pair contributes its literal followed by an env token around
its name, and the final literal closes the string. -/
def renderTokens : List (String × String) → String → String
  | [], last => last
  | (lit, name) :: ps, last =>
    lit ++ "\x7benv:" ++ name ++ "\x7d" ++ renderTokens ps last

/-- The same string with every env token replaced by the environment value
of its name (empty string when unset). -/
def renderValues (env : String → Option String) :
    List (String × String) → String → String
  | [], last => last
  | (lit, name) :: ps, last =>
    lit ++ envLookup env name ++ renderValues env ps last

theorem renderTokens_cons_data (lit name : String) (ps : List (String × String))
    (last : String) :
    (renderTokens ((lit, name) :: ps) last).data =
      lit.data ++ '\x7b' :: 'e' :: 'n' :: 'v' :: ':' ::
        (name.data ++ '\x7d' :: (renderTokens ps last).data) := by
  have h1 : ("\x7benv:" : String).data = ['\x7b', 'e', 'n', 'v', ':'] := rfl
  have h2 : ("\x7d" : String).data = ['\x7d'] := rfl
  simp [renderTokens, String.data_append, h1, h2]

/-- C5: interpolate on a string replaces every occurrence of an env token
(a left brace, the word env, a colon, a non-empty name free of closing
braces, a closing brace) by the current environment value of the name, the
empty string when the name is unset; all tokens of the string are replaced
and the literal text between and around them is preserved verbatim.  The
string is presented as its decomposition into literal segments and tokens;
the literal segments contain no token opener, so the decomposition is
exactly the occurrence structure the scanning regex sees. -/
theorem interpolate_replaces_env_tokens (env : String → Option String)
    (parts : List (String × String)) (last : String)
    (hlit : ∀ p ∈ parts, hasTokStart (Prod.fst p).data = false)
    (hname : ∀ p ∈ parts, (Prod.snd p).data ≠ [] ∧ '\x7d' ∉ (Prod.snd p).data)
    (hlast : hasTokStart last.data = false) :
    interpolateStr env (renderTokens parts last) = renderValues env parts last := by
  induction parts with
  | nil =>
    show String.mk (interpChars env last.data) = last
    rw [interpChars_eq_self_of_no_tok_start env last.data hlast]
  | cons p ps ih =>
    obtain ⟨lit, name⟩ := p
    have hl : hasTokStart lit.data = false := hlit (lit, name) (List.mem_cons_self _ _)
    have hn := hname (lit, name) (List.mem_cons_self _ _)
    have hlit' : ∀ q ∈ ps, hasTokStart (Prod.fst q).data = false :=
      fun q hq => hlit q (List.mem_cons_of_mem _ hq)
    have hname' : ∀ q ∈ ps, (Prod.snd q).data ≠ [] ∧ '\x7d' ∉ (Prod.snd q).data :=
      fun q hq => hname q (List.mem_cons_of_mem _ hq)
    have ihq := ih hlit' hname'
    show String.mk (interpChars env (renderTokens ((lit, name) :: ps) last).data) = _
    rw [renderTokens_cons_data]
    rw [interpChars_append_lit env lit.data _ hl (Or.inr ⟨_, rfl⟩)]
    have hs : startsTok ('\x7b' :: 'e' :: 'n' :: 'v' :: ':' ::
        (name.data ++ '\x7d' :: (renderTokens ps last).data)) = true := rfl
    have hf : findName (('e' :: 'n' :: 'v' :: ':' ::
        (name.data ++ '\x7d' :: (renderTokens ps last).data)).drop 4) =
        some (name.data, (renderTokens ps last).data) := by
      show findName (name.data ++ '\x7d' :: (renderTokens ps last).data) = _
      exact findName_split name.data (renderTokens ps last).data hn.2
    rw [interpChars_token env '\x7b' _ name.data (renderTokens ps last).data hs hf hn.1]
    have hdata : interpChars env (renderTokens ps last).data =
        (renderValues env ps last).data := congrArg String.data ihq
    rw [hdata]
    apply String.ext
    show lit.data ++ ((envLookup env (String.mk name.data)).data ++
        (renderValues env ps last).data) =
      (lit ++ envLookup env name ++ renderValues env ps last).data
    simp [String.data_append, List.append_assoc]

/-- Demo environment used by concrete witness runs: TEST_VAR is set to
hello, everything else is unset. -/
def demoEnv : String → Option String :=
  fun n => if n = "TEST_VAR" then some "hello" else none

/-- C5 witness: a concrete run on prefix-, a TEST_VAR token and -suffix. -/
theorem interpolate_replaces_env_tokens_witness :
    (∀ p ∈ [("prefix-", "TEST_VAR")], hasTokStart (Prod.fst p).data = false) ∧
    interpolateStr demoEnv "prefix-\x7benv:TEST_VAR\x7d-suffix" =
      "prefix-hello-suffix" := by
  constructor
  · decide
  · have h := interpolate_replaces_env_tokens demoEnv [("prefix-", "TEST_VAR")]
      "-suffix" (by decide) (by decide) (by decide)
    exact h

/-- C6: interpolate is the identity on every JSON value none of whose
string leaves contains an env token: non-string scalars pass through
unchanged and containers keep their elements, order and keys. -/
theorem interpolate_identity_on_token_free (env : String → Option String)
    (v : Json) (h : Json.tokenFree v = true) : Json.interpolate env v = v :=
  json_interpolate_id_aux env v h

/-- Concrete token-free JSON value exercised by the C6 witness. -/
def demoTokenFreeJson : Json :=
  Json.obj (.cons "a"
    (Json.arr (.cons (.str "no tokens here") (.cons (.num 42)
      (.cons (.bool true) (.cons .null .nil)))))
    (.cons "b" (.str "plain") .nil))

/-- C6 witness: the identity holds on a concrete nested value. -/
theorem interpolate_identity_on_token_free_witness :
    Json.tokenFree demoTokenFreeJson = true ∧
    Json.interpolate demoEnv demoTokenFreeJson = demoTokenFreeJson :=
  ⟨by decide, interpolate_identity_on_token_free demoEnv demoTokenFreeJson (by decide)⟩

-- ── Config loading ───────────────────────────────────────────────────────────

/-- Outcome of a readFileSync call: the file content, a does-not-exist
failure (the ENOENT code), or any other thrown error rendered as a string. -/
inductive ReadResult where
  | ok : String → ReadResult
  | enoent : ReadResult
  | otherError : String → ReadResult

/-- The present-but-invalid marker the source builds inline: a config object
whose targets field is the empty array. -/
def emptyTargetsConfig : Json := Json.obj (.cons "targets" (Json.arr .nil) .nil)

/-- JavaScript property read of the targets field: the field value on an
object, undefined (none) on any other non-null value. -/
def jsTargetsField : Json → Option Json
  | Json.obj kvs => kvs.lookup "targets"
  | _ => none

/-- readConfigFile from the source: read the file, parse it as JSON,
interpolate env tokens, and check that the targets field is an array.
A missing file is silently absent (null); any other read error and any parse
error warn once and are absent; parsed null throws on the property read
inside the same try and so also warns once and is absent; a non-array
targets field warns once and yields the empty-targets config; otherwise the
interpolated parse is returned.  The returned pair carries the result and
the console.warn lines the call emits. -/
def readConfigFile (fsRead : String → ReadResult)
    (parse : String → Except String Json) (env : String → Option String)
    (filePath : String) : Option Json × List String :=
  match fsRead filePath with
  | .enoent => (none, [])
  | .otherError e =>
    (none, ["[opencode-event-push] Could not read " ++ filePath ++ ": " ++ e])
  | .ok raw =>
    match parse raw with
    | .error e =>
      (none, ["[opencode-event-push] Could not read " ++ filePath ++ ": " ++ e])
    | .ok j =>
      let parsed := Json.interpolate env j
      match parsed with
      | Json.null =>
        (none, ["[opencode-event-push] Could not read " ++ filePath ++
          ": TypeError: Cannot read properties of null (reading \x27targets\x27)"])
      | _ =>
        match jsTargetsField parsed with
        | some (Json.arr _) => (some parsed, [])
        | _ =>
          (some emptyTargetsConfig,
            ["[opencode-event-push] " ++ filePath ++
              " is missing a \x27targets\x27 array — skipping"])

/-- The fixed global config path under the user's home directory. -/
def globalConfigPath (home : String) : String :=
  home ++ "/.config/opencode/opencode-event-push.json"

/-- The project config path under the session's working directory. -/
def projectConfigPath (directory : String) : String :=
  directory ++ "/opencode-event-push.json"

/-- The optional-chained targets read with array fallback the source merges
with: absent config contributes nothing, otherwise its targets array. -/
def optTargets : Option Json → List Json
  | none => []
  | some j =>
    match jsTargetsField j with
    | some (Json.arr xs) => xs.toList
    | _ => []

/-- loadConfig from the source: read the global file, read the project file
only when a directory was supplied, and concatenate their target lists,
global first.  The second component collects the warnings both reads
emitted. -/
def loadConfig (fsRead : String → ReadResult) (parse : String → Except String Json)
    (env : String → Option String) (home : String) (directory : Option String) :
    List Json × List String :=
  let g := readConfigFile fsRead parse env (globalConfigPath home)
  let p := match directory with
    | some d => readConfigFile fsRead parse env (projectConfigPath d)
    | none => ((none : Option Json), ([] : List String))
  (optTargets g.1 ++ optTargets p.1, g.2 ++ p.2)

theorem readConfigFile_enoent_aux (fsRead : String → ReadResult)
    (parse : String → Except String Json) (env : String → Option String)
    (filePath : String) (h : fsRead filePath = ReadResult.enoent) :
    readConfigFile fsRead parse env filePath = (none, []) := by
  unfold readConfigFile
  rw [h]

/-- C1: a concrete run on content that fails to parse as JSON.  The call
emits exactly one diagnostic, as claimed, but returns the absent marker
null rather than the documented present-but-invalid empty-targets config:
the thrown SyntaxError falls into the same catch as read failures, whose
non-ENOENT arm warns and returns null. -/
theorem readConfigFile_malformed_json_eval :
    readConfigFile (fun _ => ReadResult.ok "not valid json")
      (fun _ => Except.error "SyntaxError: Unexpected token") demoEnv
      "/malformed.json" =
    (none,
      ["[opencode-event-push] Could not read /malformed.json: SyntaxError: Unexpected token"]) :=
  rfl

/-- C7: when the read fails with ENOENT, readConfigFile returns the absent
marker and emits no diagnostic; the result is the same for every parser, so
no parse of the content is ever consulted. -/
theorem readConfigFile_enoent_silent_absent (fsRead : String → ReadResult)
    (parse : String → Except String Json) (env : String → Option String)
    (filePath : String) (h : fsRead filePath = ReadResult.enoent) :
    readConfigFile fsRead parse env filePath = (none, []) :=
  readConfigFile_enoent_aux fsRead parse env filePath h

/-- C7 witness: a concrete missing-file run. -/
theorem readConfigFile_enoent_silent_absent_witness :
    (fun (_ : String) => ReadResult.enoent) "/missing.json" = ReadResult.enoent ∧
    readConfigFile (fun _ => ReadResult.enoent)
      (fun _ => Except.error "never") demoEnv "/missing.json" = (none, []) :=
  ⟨rfl, readConfigFile_enoent_silent_absent (fun _ => ReadResult.enoent)
    (fun _ => Except.error "never") demoEnv "/missing.json" rfl⟩

/-- C4: loadConfig returns the concatenation of the global targets (empty
when that file is absent) followed by the project targets (empty when
absent or when no directory was supplied), in that order; and when neither
file is present the result is the empty target list, not an error. -/
theorem loadConfig_concat_global_project (fsRead : String → ReadResult)
    (parse : String → Except String Json) (env : String → Option String)
    (home : String) (directory : Option String) :
    (loadConfig fsRead parse env home directory).1 =
      optTargets (readConfigFile fsRead parse env (globalConfigPath home)).1 ++
        (match directory with
         | some d =>
           optTargets (readConfigFile fsRead parse env (projectConfigPath d)).1
         | none => []) ∧
    (fsRead (globalConfigPath home) = ReadResult.enoent →
      (∀ d, directory = some d → fsRead (projectConfigPath d) = ReadResult.enoent) →
      (loadConfig fsRead parse env home directory).1 = []) := by
  constructor
  · cases directory with
    | none => rfl
    | some d => rfl
  · intro hg hp
    cases directory with
    | none =>
      show optTargets (readConfigFile fsRead parse env (globalConfigPath home)).1 ++
        optTargets none = []
      rw [readConfigFile_enoent_aux fsRead parse env _ hg]
      rfl
    | some d =>
      show optTargets (readConfigFile fsRead parse env (globalConfigPath home)).1 ++
        optTargets (readConfigFile fsRead parse env (projectConfigPath d)).1 = []
      rw [readConfigFile_enoent_aux fsRead parse env _ hg,
        readConfigFile_enoent_aux fsRead parse env _ (hp d rfl)]
      rfl

/-- Concrete global target used by the C4 witness. -/
def demoGlobalTarget : Json :=
  Json.obj (.cons "url" (.str "https://global.example.com") .nil)

/-- Concrete project target used by the C4 witness. -/
def demoProjectTarget : Json :=
  Json.obj (.cons "url" (.str "https://project.example.com") .nil)

/-- File system for the C4 witness: both config files present. -/
def demoFs : String → ReadResult := fun path =>
  if path = globalConfigPath "/home/u" then ReadResult.ok "G"
  else if path = projectConfigPath "/proj" then ReadResult.ok "P"
  else ReadResult.enoent

/-- Parser for the C4 witness: content G and P parse to one-target configs. -/
def demoParse : String → Except String Json := fun raw =>
  if raw = "G" then
    Except.ok (Json.obj (.cons "targets" (Json.arr (.cons demoGlobalTarget .nil)) .nil))
  else if raw = "P" then
    Except.ok (Json.obj (.cons "targets" (Json.arr (.cons demoProjectTarget .nil)) .nil))
  else Except.error "SyntaxError: Unexpected token"

/-- C4 witness: with both files present the result is global target then
project target; with neither present it is empty. -/
theorem loadConfig_concat_global_project_witness :
    (loadConfig demoFs demoParse demoEnv "/home/u" (some "/proj")).1 =
      [demoGlobalTarget, demoProjectTarget] ∧
    (loadConfig (fun _ => ReadResult.enoent) demoParse demoEnv "/home/u"
      (some "/proj")).1 = [] := by
  constructor
  · have h := (loadConfig_concat_global_project demoFs demoParse demoEnv
      "/home/u" (some "/proj")).1
    rw [h]
    rfl
  · exact (loadConfig_concat_global_project (fun _ => ReadResult.enoent) demoParse
      demoEnv "/home/u" (some "/proj")).2 rfl (fun d hd => rfl)

-- ── Delivery engine ──────────────────────────────────────────────────────────

/-- Per-target retry policy; both fields are optional in the config. -/
structure RetryConfig where
  attempts : Option Nat := none
  delayMs : Option Nat := none
deriving Repr

/-- One delivery destination as the source's TargetConfig interface declares
it: required url, optional event allowlist, optional retry policy and
optional extra headers. -/
structure TargetConfig where
  url : String
  events : Option (List String) := none
  retry : Option RetryConfig := none
  headers : List (String × String) := []
deriving Repr

/-- Outcome of one fetch call: a response with an ok status, a response
with a non-ok status and its status text, or a transport-level rejection
rendered as its string form. -/
inductive FetchOutcome where
  | success : FetchOutcome
  | httpError : Nat → String → FetchOutcome
  | transportError : String → FetchOutcome
deriving Repr

def FetchOutcome.isSuccess : FetchOutcome → Bool
  | .success => true
  | _ => false

/-- String rendering of the error a failed attempt throws: a non-ok
response becomes a thrown Error over HTTP status and status text, a
transport rejection keeps its own rendering. -/
def errString : FetchOutcome → String
  | .success => ""
  | .httpError status statusText =>
    "Error: HTTP " ++ toString status ++ " " ++ statusText
  | .transportError msg => msg

/-- One outbound HTTP POST as the engine issues it. -/
structure HttpRequest where
  url : String
  headers : List (String × String)
  body : Json
deriving Repr

/-- One invocation of the log collaborator: the human-readable message and
the structured extra fields url, error and attempts. -/
structure LogCall where
  message : String
  url : String
  error : String
  attempts : Nat
deriving Repr, DecidableEq

/-- Observable behaviour of one pushToTarget call: the requests sent in
order, the backoff waits performed in order, the log invocations made, and
whether an exception escaped the call (the promise rejected). -/
structure PushResult where
  requests : List HttpRequest
  delays : List Nat
  logCalls : List LogCall
  raised : Bool
deriving Repr

/-- The header set of every request: the fixed JSON content type then the
target's own headers; the source builds this by object spread, so a later
duplicate name takes precedence. -/
def mergeHeaders (headers : List (String × String)) : List (String × String) :=
  ("Content-Type", "application/json") :: headers

/-- The log invocation made after the final failed attempt, with the
message the source formats and its structured extras. -/
def failLogCall (url : String) (maxAttempts : Nat) (out : FetchOutcome) : LogCall :=
  { message := "Failed to push event to " ++ url ++ " after " ++
      toString maxAttempts ++ " attempt(s)" ++ ": " ++ errString out,
    url := url, error := errString out, attempts := maxAttempts }

/-- The source's attempt loop.  The loop counter is split into remaining
fuel and the 0-indexed attempt number with fuel + attempt equal to the
attempt budget at every call, so the loop body runs exactly maxAttempts
times; fuel zero after destructuring marks the last attempt.  A successful
response returns at once; a failure on the last attempt awaits the log call
(whose rejection, if any, escapes, because the await sits inside the catch
block) and returns; an earlier failure waits baseDelay times two to the
attempt index and proceeds to the next attempt. -/
def pushLoop (url : String) (headers : List (String × String)) (payload : Json)
    (maxAttempts baseDelay : Nat) (fetches : Nat → FetchOutcome) (logOk : Bool) :
    Nat → Nat → PushResult
  | 0, _ => { requests := [], delays := [], logCalls := [], raised := false }
  | fuel + 1, attempt =>
    match fetches attempt with
    | .success =>
      { requests := [⟨url, headers, payload⟩], delays := [], logCalls := [],
        raised := false }
    | out =>
      if fuel = 0 then
        { requests := [⟨url, headers, payload⟩], delays := [],
          logCalls := [failLogCall url maxAttempts out], raised := !logOk }
      else
        let rest := pushLoop url headers payload maxAttempts baseDelay fetches
          logOk fuel (attempt + 1)
        { requests := ⟨url, headers, payload⟩ :: rest.requests,
          delays := baseDelay * 2 ^ attempt :: rest.delays,
          logCalls := rest.logCalls, raised := rest.raised }

/-- Effective attempt budget: retry.attempts with default 3. -/
def effAttempts (t : TargetConfig) : Nat := ((t.retry.getD {}).attempts).getD 3

/-- Effective base backoff delay: retry.delayMs with default 500. -/
def effDelay (t : TargetConfig) : Nat := ((t.retry.getD {}).delayMs).getD 500

/-- pushToTarget from the source: resolve the effective retry policy and
run the attempt loop from attempt zero with a full fuel budget. -/
def pushToTarget (target : TargetConfig) (payload : Json)
    (fetches : Nat → FetchOutcome) (logOk : Bool) : PushResult :=
  pushLoop target.url (mergeHeaders target.headers) payload (effAttempts target)
    (effDelay target) fetches logOk (effAttempts target) 0

theorem pushLoop_no_raise (url : String) (headers : List (String × String))
    (payload : Json) (maxA baseD : Nat) (fetches : Nat → FetchOutcome) :
    ∀ (fuel attempt : Nat),
      (pushLoop url headers payload maxA baseD fetches true fuel attempt).raised
        = false := by
  intro fuel
  induction fuel with
  | zero => intro attempt; rfl
  | succ fuel ih =>
    intro attempt
    simp only [pushLoop]
    cases hf : fetches attempt with
    | success => rfl
    | httpError s t =>
      by_cases h0 : fuel = 0
      · simp [h0]
      · simp [h0, ih (attempt + 1)]
    | transportError m =>
      by_cases h0 : fuel = 0
      · simp [h0]
      · simp [h0, ih (attempt + 1)]

theorem delays_cons_eq (baseD attempt k : Nat) :
    baseD * 2 ^ attempt ::
      (List.range k).map (fun j => baseD * 2 ^ (attempt + 1 + j)) =
    (List.range (k + 1)).map (fun j => baseD * 2 ^ (attempt + j)) := by
  rw [List.range_succ_eq_map, List.map_cons, List.map_map]
  refine congrArg₂ _ (congrArg (fun x => baseD * 2 ^ x) (by omega)) ?_
  apply List.map_congr_left
  intro j _
  simp only [Function.comp_apply]
  exact congrArg (fun x => baseD * 2 ^ x) (by omega)

theorem pushLoop_all_fail (url : String) (headers : List (String × String))
    (payload : Json) (maxA baseD : Nat) (fetches : Nat → FetchOutcome)
    (logOk : Bool) :
    ∀ (fuel attempt : Nat), fuel + attempt = maxA → 0 < fuel →
      (∀ i, attempt ≤ i → i < maxA → (fetches i).isSuccess = false) →
      pushLoop url headers payload maxA baseD fetches logOk fuel attempt =
        { requests := List.replicate fuel ⟨url, headers, payload⟩,
          delays := (List.range (fuel - 1)).map (fun j => baseD * 2 ^ (attempt + j)),
          logCalls := [failLogCall url maxA (fetches (maxA - 1))],
          raised := !logOk } := by
  intro fuel
  induction fuel with
  | zero => intro attempt _ h0 _; exact absurd h0 (lt_irrefl 0)
  | succ fuel ih =>
    intro attempt h _ hfail
    have hfa : (fetches attempt).isSuccess = false :=
      hfail attempt (le_refl _) (by omega)
    simp only [pushLoop]
    cases hf : fetches attempt with
    | success => rw [hf] at hfa; simp [FetchOutcome.isSuccess] at hfa
    | httpError s t =>
      dsimp only
      by_cases h0 : fuel = 0
      · subst h0
        have ha : maxA - 1 = attempt := by omega
        simp only [if_pos rfl, ha, hf]
        simp [List.replicate]
      · rw [if_neg h0]
        obtain ⟨k, rfl⟩ := Nat.exists_eq_succ_of_ne_zero h0
        rw [ih (attempt + 1) (by omega) (by omega)
          (fun i hi1 hi2 => hfail i (by omega) hi2)]
        simp only [Nat.succ_sub_one, Nat.add_sub_cancel]
        rw [delays_cons_eq baseD attempt k]
        simp [List.replicate_succ]
    | transportError m =>
      dsimp only
      by_cases h0 : fuel = 0
      · subst h0
        have ha : maxA - 1 = attempt := by omega
        simp only [if_pos rfl, ha, hf]
        simp [List.replicate]
      · rw [if_neg h0]
        obtain ⟨k, rfl⟩ := Nat.exists_eq_succ_of_ne_zero h0
        rw [ih (attempt + 1) (by omega) (by omega)
          (fun i hi1 hi2 => hfail i (by omega) hi2)]
        simp only [Nat.succ_sub_one, Nat.add_sub_cancel]
        rw [delays_cons_eq baseD attempt k]
        simp [List.replicate_succ]

theorem pushLoop_delays (url : String) (headers : List (String × String))
    (payload : Json) (maxA baseD : Nat) (fetches : Nat → FetchOutcome)
    (logOk : Bool) :
    ∀ (fuel attempt : Nat), fuel + attempt = maxA →
      (∀ i, attempt ≤ i → i + 1 < maxA → (fetches i).isSuccess = false) →
      (pushLoop url headers payload maxA baseD fetches logOk fuel attempt).delays =
        (List.range (fuel - 1)).map (fun j => baseD * 2 ^ (attempt + j)) := by
  intro fuel
  induction fuel with
  | zero => intro attempt _ _; rfl
  | succ fuel ih =>
    intro attempt h hfail
    simp only [pushLoop]
    cases hf : fetches attempt with
    | success =>
      have hfuel : fuel = 0 := by
        by_contra hne
        have hlt : attempt + 1 < maxA := by omega
        have h2 := hfail attempt (le_refl _) hlt
        rw [hf] at h2
        simp [FetchOutcome.isSuccess] at h2
      subst hfuel
      rfl
    | httpError s t =>
      dsimp only
      by_cases h0 : fuel = 0
      · subst h0; simp
      · rw [if_neg h0]
        obtain ⟨k, rfl⟩ := Nat.exists_eq_succ_of_ne_zero h0
        show baseD * 2 ^ attempt :: (pushLoop url headers payload maxA baseD
            fetches logOk (k + 1) (attempt + 1)).delays = _
        rw [ih (attempt + 1) (by omega) (fun i hi1 hi2 => hfail i (by omega) hi2)]
        simp only [Nat.succ_sub_one, Nat.add_sub_cancel]
        exact delays_cons_eq baseD attempt k
    | transportError m =>
      dsimp only
      by_cases h0 : fuel = 0
      · subst h0; simp
      · rw [if_neg h0]
        obtain ⟨k, rfl⟩ := Nat.exists_eq_succ_of_ne_zero h0
        show baseD * 2 ^ attempt :: (pushLoop url headers payload maxA baseD
            fetches logOk (k + 1) (attempt + 1)).delays = _
        rw [ih (attempt + 1) (by omega) (fun i hi1 hi2 => hfail i (by omega) hi2)]
        simp only [Nat.succ_sub_one, Nat.add_sub_cancel]
        exact delays_cons_eq baseD attempt k

theorem str_append_assoc (a b c : String) : a ++ b ++ c = a ++ (b ++ c) :=
  String.ext (by simp [String.data_append])

theorem str_append_empty (a : String) : a ++ "" = a :=
  String.ext (by simp [String.data_append])

/-- C2 counterexample: one failing attempt and a rejecting logger make the
pushToTarget promise itself reject: the await of the log call sits inside
the catch block, so the logger's failure escapes the call. -/
theorem pushToTarget_raises_when_log_fails :
    (pushToTarget
      { url := "https://x.example",
        retry := some { attempts := some 1, delayMs := some 0 } }
      Json.null (fun _ => FetchOutcome.transportError "Error: network down")
      false).raised = true := rfl

/-- C2 amended: pushToTarget completes normally and never raises, for every
target, payload and per-attempt fetch behaviour, provided the logFailure
call itself resolves; when the logger rejects, that rejection escapes
pushToTarget (and is absorbed only by the dispatcher's settle-all). -/
theorem pushToTarget_never_raises_of_log_ok (target : TargetConfig)
    (payload : Json) (fetches : Nat → FetchOutcome) :
    (pushToTarget target payload fetches true).raised = false :=
  pushLoop_no_raise target.url (mergeHeaders target.headers) payload
    (effAttempts target) (effDelay target) fetches (effAttempts target) 0

/-- C3: when every attempt of an n-attempt budget fails, pushToTarget sends
exactly n POST requests and invokes the logger exactly once, with the
target url, the attempt count and the final error description both as
structured extras and inside the message, then returns normally with the
logger resolving. -/
theorem pushToTarget_exhaustion_reports_once (target : TargetConfig)
    (payload : Json) (fetches : Nat → FetchOutcome)
    (h1 : 1 ≤ effAttempts target)
    (h2 : ∀ i, i < effAttempts target → (fetches i).isSuccess = false) :
    (pushToTarget target payload fetches true).requests.length = effAttempts target ∧
    (∃ c, (pushToTarget target payload fetches true).logCalls = [c] ∧
      c.url = target.url ∧
      c.attempts = effAttempts target ∧
      c.error = errString (fetches (effAttempts target - 1)) ∧
      (∃ a b, c.message = a ++ target.url ++ b) ∧
      (∃ a b, c.message =
        a ++ (toString (effAttempts target) ++ " attempt(s)") ++ b) ∧
      (∃ a b, c.message =
        a ++ errString (fetches (effAttempts target - 1)) ++ b)) ∧
    (pushToTarget target payload fetches true).raised = false := by
  have hall := pushLoop_all_fail target.url (mergeHeaders target.headers) payload
    (effAttempts target) (effDelay target) fetches true (effAttempts target) 0
    (by omega) (by omega) (fun i _ hi => h2 i hi)
  unfold pushToTarget
  rw [hall]
  refine ⟨by simp,
    ⟨failLogCall target.url (effAttempts target)
        (fetches (effAttempts target - 1)),
      rfl, rfl, rfl, rfl, ?_, ?_, ?_⟩,
    by simp⟩
  · exact ⟨"Failed to push event to ",
      " after " ++ toString (effAttempts target) ++ " attempt(s)" ++ ": " ++
        errString (fetches (effAttempts target - 1)),
      by simp only [failLogCall, str_append_assoc]⟩
  · exact ⟨"Failed to push event to " ++ target.url ++ " after ",
      ": " ++ errString (fetches (effAttempts target - 1)),
      by simp only [failLogCall, str_append_assoc]⟩
  · exact ⟨"Failed to push event to " ++ target.url ++ " after " ++
        toString (effAttempts target) ++ " attempt(s)" ++ ": ", "",
      by simp only [failLogCall, str_append_assoc, str_append_empty]⟩

/-- Target with an explicit three-attempt retry policy, used by the C3 and
C8 witnesses. -/
def demoFailTarget : TargetConfig :=
  { url := "https://hook.example.com/push",
    retry := some { attempts := some 3, delayMs := some 500 } }

/-- C3 witness: three attempts, persistent HTTP 500, exactly three requests
and one log call. -/
theorem pushToTarget_exhaustion_reports_once_witness :
    1 ≤ effAttempts demoFailTarget ∧
    (pushToTarget demoFailTarget Json.null
      (fun _ => FetchOutcome.httpError 500 "Internal Server Error")
      true).requests.length = 3 ∧
    (pushToTarget demoFailTarget Json.null
      (fun _ => FetchOutcome.httpError 500 "Internal Server Error")
      true).logCalls.length = 1 := by
  have h := pushToTarget_exhaustion_reports_once demoFailTarget Json.null
    (fun _ => FetchOutcome.httpError 500 "Internal Server Error") (by decide)
    (fun i _ => rfl)
  refine ⟨by decide, h.1, ?_⟩
  obtain ⟨c, hc, _⟩ := h.2.1
  rw [hc]
  rfl

/-- C8: as long as every non-final attempt fails, the wait after the
0-indexed attempt i is exactly the effective base delay times two to the i,
so the successive delays double starting from the base delay. -/
theorem pushToTarget_exponential_backoff (target : TargetConfig) (payload : Json)
    (fetches : Nat → FetchOutcome) (logOk : Bool)
    (h : ∀ i, i + 1 < effAttempts target → (fetches i).isSuccess = false) :
    (pushToTarget target payload fetches logOk).delays =
      (List.range (effAttempts target - 1)).map
        (fun i => effDelay target * 2 ^ i) := by
  unfold pushToTarget
  rw [pushLoop_delays target.url (mergeHeaders target.headers) payload
    (effAttempts target) (effDelay target) fetches logOk (effAttempts target) 0
    (by omega) (fun i _ hi => h i hi)]
  apply List.map_congr_left
  intro j _
  rw [Nat.zero_add]

/-- C8 witness: three attempts at base delay 500 with persistent failure
wait 500 then 1000. -/
theorem pushToTarget_exponential_backoff_witness :
    (∀ i, i + 1 < effAttempts demoFailTarget →
      ((fun (_ : Nat) => FetchOutcome.httpError 500 "Internal Server Error") i).isSuccess
        = false) ∧
    (pushToTarget demoFailTarget Json.null
      (fun _ => FetchOutcome.httpError 500 "Internal Server Error")
      true).delays = [500, 1000] := by
  constructor
  · intro i _; rfl
  · rw [pushToTarget_exponential_backoff demoFailTarget Json.null
      (fun _ => FetchOutcome.httpError 500 "Internal Server Error") true
      (fun i _ => rfl)]
    rfl

-- ── Dispatcher and plugin ────────────────────────────────────────────────────

/-- The event filter predicate from the source hook body: a target matches
when its events list is absent, empty, or contains the event's type. -/
def matchesEvent (t : TargetConfig) (etype : String) : Bool :=
  match t.events with
  | none => true
  | some es => es.isEmpty || es.contains etype

/-- Observable behaviour of one dispatcher invocation: every matching
target paired with its settled delivery result, and whether the handler's
promise rejected.  Promise.allSettled waits for all deliveries and never
rejects, so completion carries every outcome and raised is always false. -/
structure DispatchResult where
  pushes : List (TargetConfig × PushResult)
  raised : Bool

/-- The event hook body from the source: filter the loaded targets by the
event type; when none match, return at once with no network activity;
otherwise run the delivery engine for every matching target and settle all
their outcomes.  fetchesFor gives each concurrent delivery, indexed by its
position in the matching list, its own per-attempt fetch outcomes. -/
def dispatchEvent (targets : List TargetConfig) (etype : String) (payload : Json)
    (fetchesFor : Nat → Nat → FetchOutcome) (logOk : Bool) : DispatchResult :=
  let matching := targets.filter (fun t => matchesEvent t etype)
  if matching.length = 0 then { pushes := [], raised := false }
  else
    { pushes := matching.enum.map
        (fun it => (it.2, pushToTarget it.2 payload (fetchesFor it.1) logOk)),
      raised := false }

/-- Key-value pairs of an embedded JSON object. -/
def JsonObj.toPairs : JsonObj → List (String × Json)
  | .nil => []
  | .cons k v rest => (k, v) :: JsonObj.toPairs rest

/-- String field read with the empty-string default. -/
def jsString : Option Json → String
  | some (Json.str s) => s
  | _ => ""

/-- Numeric field read as a natural number, absent otherwise. -/
def jsNat : Option Json → Option Nat
  | some (Json.num n) => some n.toNat
  | _ => none

/-- Array-of-strings field read, absent otherwise. -/
def jsStringList : Option Json → Option (List String)
  | some (Json.arr xs) =>
    some (xs.toList.filterMap (fun x =>
      match x with
      | Json.str s => some s
      | _ => none))
  | _ => none

/-- Retry-policy field read, absent otherwise. -/
def jsRetry : Option Json → Option RetryConfig
  | some (Json.obj rkvs) =>
    some { attempts := jsNat (rkvs.lookup "attempts"),
           delayMs := jsNat (rkvs.lookup "delayMs") }
  | _ => none

/-- Headers field read as name-value pairs, empty otherwise. -/
def jsHeaders : Option Json → List (String × String)
  | some (Json.obj hkvs) =>
    hkvs.toPairs.filterMap (fun kv =>
      match kv.2 with
      | Json.str s => some (kv.1, s)
      | _ => none)
  | _ => []

/-- The typed view of one parsed target: the source reads parsed JSON
through the TargetConfig interface after a type cast, so field reads assume
the declared shapes; this realizes that reading, fields of other shapes
defaulting to the interface's absent values. -/
def decodeTarget : Json → TargetConfig
  | Json.obj kvs =>
    { url := jsString (kvs.lookup "url"),
      events := jsStringList (kvs.lookup "events"),
      retry := jsRetry (kvs.lookup "retry"),
      headers := jsHeaders (kvs.lookup "headers") }
  | _ => { url := "" }

/-- The hooks object plugin activation returns: either empty, with no
event handler at all, or carrying the event handler. -/
inductive Hooks where
  | empty : Hooks
  | withEvent :
    (String → Json → (Nat → Nat → FetchOutcome) → Bool → DispatchResult) → Hooks

/-- EventPushPlugin from the source: load and merge the configuration once
at activation; when the merged target list is empty return the empty hooks
object, otherwise return the event handler closed over the loaded
targets. -/
def EventPushPlugin (fsRead : String → ReadResult)
    (parse : String → Except String Json) (env : String → Option String)
    (home : String) (directory : Option String) : Hooks :=
  let targets := (loadConfig fsRead parse env home directory).1
  if targets.length = 0 then Hooks.empty
  else Hooks.withEvent (fun etype payload fetchesFor logOk =>
    dispatchEvent (targets.map decodeTarget) etype payload fetchesFor logOk)

theorem matchesEvent_iff (t : TargetConfig) (etype : String) :
    matchesEvent t etype = true ↔
      (t.events = none ∨ t.events = some [] ∨
        ∃ es, t.events = some es ∧ etype ∈ es) := by
  cases he : t.events with
  | none => simp [matchesEvent, he]
  | some es =>
    simp only [matchesEvent, he, Bool.or_eq_true, List.isEmpty_iff,
      Option.some.injEq, reduceCtorEq, false_or]
    constructor
    · rintro (rfl | hc)
      · exact Or.inl rfl
      · exact Or.inr ⟨es, rfl, by simpa using hc⟩
    · rintro (rfl | ⟨es', hes, hmem⟩)
      · exact Or.inl rfl
      · cases hes
        exact Or.inr (by simpa using hmem)

/-- C9: the dispatcher selects exactly the targets whose events list is
absent, empty or contains the event's type; when the matching set is empty
no delivery happens at all; otherwise the delivery engine runs once per
matching target and the handler completes only after every delivery's
outcome has settled and been recorded; and the handler never raises,
whatever the delivery outcomes. -/
theorem dispatch_filters_and_settles (targets : List TargetConfig)
    (etype : String) (payload : Json) (fetchesFor : Nat → Nat → FetchOutcome)
    (logOk : Bool) :
    (∀ t, t ∈ targets.filter (fun t => matchesEvent t etype) ↔
      (t ∈ targets ∧ (t.events = none ∨ t.events = some [] ∨
        ∃ es, t.events = some es ∧ etype ∈ es))) ∧
    (targets.filter (fun t => matchesEvent t etype) = [] →
      (dispatchEvent targets etype payload fetchesFor logOk).pushes = []) ∧
    (dispatchEvent targets etype payload fetchesFor logOk).pushes.map Prod.fst =
      targets.filter (fun t => matchesEvent t etype) ∧
    (dispatchEvent targets etype payload fetchesFor logOk).raised = false := by
  refine ⟨?_, ?_, ?_, ?_⟩
  · intro t
    rw [List.mem_filter, matchesEvent_iff]
  · intro h
    simp [dispatchEvent, h]
  · by_cases hm : (targets.filter (fun t => matchesEvent t etype)).length = 0
    · have h0 : targets.filter (fun t => matchesEvent t etype) = [] :=
        List.length_eq_zero.mp hm
      simp [dispatchEvent, h0]
    · simp only [dispatchEvent, if_neg hm, List.map_map]
      have h1 : (Prod.fst ∘ fun it : Nat × TargetConfig =>
          (it.2, pushToTarget it.2 payload (fetchesFor it.1) logOk)) =
          Prod.snd := rfl
      rw [h1, List.enum_map_snd]
  · by_cases hm : (targets.filter (fun t => matchesEvent t etype)).length = 0
    · simp [dispatchEvent, hm]
    · simp [dispatchEvent, hm]

/-- Catch-all target used by the C9 witness: empty events list. -/
def demoTargetA : TargetConfig := { url := "https://a.example.com", events := some [] }

/-- Filtered target used by the C9 witness: only event type x. -/
def demoTargetB : TargetConfig :=
  { url := "https://b.example.com", events := some ["x"] }

/-- C9 witness: on an event of type y only the catch-all target is
delivered to; with only the filtered target configured nothing is sent;
and the handler does not raise. -/
theorem dispatch_filters_and_settles_witness :
    (dispatchEvent [demoTargetA, demoTargetB] "y" Json.null
      (fun _ _ => FetchOutcome.success) true).pushes.map Prod.fst =
      [demoTargetA] ∧
    (dispatchEvent [demoTargetB] "y" Json.null
      (fun _ _ => FetchOutcome.success) true).pushes = [] ∧
    (dispatchEvent [demoTargetA, demoTargetB] "y" Json.null
      (fun _ _ => FetchOutcome.success) true).raised = false := by
  refine ⟨?_, ?_, ?_⟩
  · have h := (dispatch_filters_and_settles [demoTargetA, demoTargetB] "y"
      Json.null (fun _ _ => FetchOutcome.success) true).2.2.1
    rw [h]
    rfl
  · exact (dispatch_filters_and_settles [demoTargetB] "y" Json.null
      (fun _ _ => FetchOutcome.success) true).2.1 rfl
  · exact (dispatch_filters_and_settles [demoTargetA, demoTargetB] "y"
      Json.null (fun _ _ => FetchOutcome.success) true).2.2.2

/-- C10: when the merged target list is empty, plugin activation returns
the empty hooks object, which has no event handler at all, so no event is
ever filtered or dispatched for the lifetime of the session. -/
theorem plugin_empty_targets_no_hooks (fsRead : String → ReadResult)
    (parse : String → Except String Json) (env : String → Option String)
    (home : String) (directory : Option String)
    (h : (loadConfig fsRead parse env home directory).1 = []) :
    EventPushPlugin fsRead parse env home directory = Hooks.empty := by
  simp [EventPushPlugin, h]

/-- C10 witness: with both config files missing the merged list is empty
and activation yields the empty hooks object. -/
theorem plugin_empty_targets_no_hooks_witness :
    (loadConfig (fun _ => ReadResult.enoent) demoParse demoEnv "/home/u"
      (some "/proj")).1 = [] ∧
    EventPushPlugin (fun _ => ReadResult.enoent) demoParse demoEnv "/home/u"
      (some "/proj") = Hooks.empty :=
  ⟨rfl, plugin_empty_targets_no_hooks (fun _ => ReadResult.enoent) demoParse
    demoEnv "/home/u" (some "/proj") rfl⟩
